import Mathlib

/-
Verification of the amidiauto connection-policy engine (src/amidiauto.cpp).

The definitions below are a shallow embedding of the C++ source:
  - snd_seq_addr_t            -> SeqAddr
  - ConnectionRules           -> ConnectionRules (addRule, hasRules,
                                 isConnectionAllowed, evaluate, evaluateRule)
  - Client                    -> Client (m_input/m_output with the
                                 initialized flags modelled as Option)
  - clients_t (std::map)      -> association list sorted by key
  - portAdd / portRemove / portAutoConnect / portsConnectAll / the
    portsInit sweep -> functions of the same names.
ALSA calls are abstracted by a client-info environment
cinfo : Nat -> Option String (snd_seq_get_any_client_info together with
snd_seq_client_info_get_name; none models a failed lookup or a NULL name),
and connect calls are collected into result lists instead of being issued.
-/

namespace Amidiauto

/-- snd_seq_addr_t: pair (client, port), ordered and compared lexicographically. -/
structure SeqAddr where
  client : Nat
  port : Nat
deriving DecidableEq, Repr

/-- Substring search helper: does the haystack start with the needle
(character-wise prefix test, as done by C string comparison)? -/
def isPrefixList : List Char → List Char → Bool
  | [], _ => true
  | _ :: _, [] => false
  | a :: as, b :: bs => a == b && isPrefixList as bs

/-- std::string::find(needle) != npos on lists of characters:
the needle occurs as a contiguous substring of the haystack.
The empty needle is found in every haystack (find returns 0). -/
def containsSub (needle : List Char) : List Char → Bool
  | [] => isPrefixList needle []
  | c :: t => isPrefixList needle (c :: t) || containsSub needle t

/-- haystack.find(needle) != std::string::npos. -/
def strFindSub (hay pat : String) : Bool :=
  containsSub pat.data hay.data

/-- strchr(s, c) != NULL. -/
def hasStar (s : String) : Bool :=
  s.data.contains '*'

/-- getClientName: resolves a client name through the environment,
returning the empty string when the lookup fails or the name is NULL. -/
def getClientName (cinfo : Nat → Option String) (addr : SeqAddr) : String :=
  (cinfo addr.client).getD ""

/-- ConnectionRules::Type. -/
inductive RuleType where
  | TYPE_UNKNOWN
  | TYPE_ALLOW
  | TYPE_DISALLOW
deriving DecidableEq, Repr

/-- ConnectionRules::Strength. -/
inductive Strength where
  | STRENGTH_NONE
  | STRENGTH_VERY_VAGUE
  | STRENGTH_VAGUE
  | STRENGTH_SPECIFIC
deriving DecidableEq, Repr

/-- The integer value of each Strength enumerator. -/
def Strength.toNat : Strength → Nat
  | .STRENGTH_NONE => 0
  | .STRENGTH_VERY_VAGUE => 1
  | .STRENGTH_VAGUE => 2
  | .STRENGTH_SPECIFIC => 3

/-- ConnectionRules: the two rule collections. A rule is
(output pattern, input pattern); rules_t is a multimap, modelled as a list. -/
structure ConnectionRules where
  m_allowRules : List (String × String)
  m_disallowRules : List (String × String)
deriving DecidableEq, Repr

/-- ConnectionRules::addRule. The null-pointer arguments of the C++
signature are modelled as Option String. -/
def ConnectionRules.addRule (r : ConnectionRules) (type : RuleType)
    (output input : Option String) : ConnectionRules :=
  match output, input with
  | some o, some i =>
    if type = .TYPE_UNKNOWN then r
    else if hasStar o && decide (1 < o.length) then r
    else if hasStar i && decide (1 < i.length) then r
    else if type = .TYPE_ALLOW then
      { r with m_allowRules := r.m_allowRules ++ [(o, i)] }
    else
      { r with m_disallowRules := r.m_disallowRules ++ [(o, i)] }
  | _, _ => r

/-- ConnectionRules::hasRules. -/
def ConnectionRules.hasRules (r : ConnectionRules) : Bool :=
  !r.m_allowRules.isEmpty || !r.m_disallowRules.isEmpty

/-- ConnectionRules::evaluate (single rule overload). -/
def ConnectionRules.evaluateRule (rule : String × String)
    (outputName inputName : String) : Strength :=
  if rule.1 = "*" then
    if rule.2 = "*" then .STRENGTH_VERY_VAGUE
    else if strFindSub inputName rule.2 then .STRENGTH_VAGUE
    else .STRENGTH_NONE
  else if strFindSub outputName rule.1 then
    if rule.2 = "*" then .STRENGTH_VAGUE
    else if strFindSub inputName rule.2 then .STRENGTH_SPECIFIC
    else .STRENGTH_NONE
  else .STRENGTH_NONE

/-- ConnectionRules::evaluate (rule collection overload): resolves the two
client names and keeps the strongest per-rule strength seen. -/
def ConnectionRules.evaluate (rules : List (String × String))
    (cinfo : Nat → Option String) (output input : SeqAddr) : Strength :=
  let outputName := getClientName cinfo output
  let inputName := getClientName cinfo input
  rules.foldl (fun strength rule =>
    let s := ConnectionRules.evaluateRule rule outputName inputName
    if strength.toNat < s.toNat then s else strength) .STRENGTH_NONE

/-- ConnectionRules::isConnectionAllowed. -/
def ConnectionRules.isConnectionAllowed (r : ConnectionRules)
    (cinfo : Nat → Option String) (output input : SeqAddr)
    (minimumStrength : Strength) : Bool :=
  let allowStrength := ConnectionRules.evaluate r.m_allowRules cinfo output input
  let disallowStrength := ConnectionRules.evaluate r.m_disallowRules cinfo output input
  decide (minimumStrength.toNat ≤ allowStrength.toNat) &&
    decide (disallowStrength.toNat ≤ allowStrength.toNat)

/-- An empty ConnectionRules object (the initial state of g_rules). -/
def emptyRules : ConnectionRules := ⟨[], []⟩

/-- The default allow-everything policy: g_rules after
g_rules.addRule(TYPE_ALLOW, "*", "*"). -/
def allowAllRules : ConnectionRules :=
  ConnectionRules.addRule emptyRules .TYPE_ALLOW (some "*") (some "*")

/-- The default-policy fragment of main: install Allow (*,*) when no rules
were loaded. -/
def installDefaultRule (r : ConnectionRules) : ConnectionRules :=
  if r.hasRules then r
  else r.addRule .TYPE_ALLOW (some "*") (some "*")

/-- PortDir bitset: DIR_INPUT and DIR_OUTPUT bits. -/
structure PortDir where
  hasInput : Bool
  hasOutput : Bool
deriving DecidableEq, Repr

def DIR_UNKNOWN : PortDir := ⟨false, false⟩

def DIR_INPUT : PortDir := ⟨true, false⟩

def DIR_OUTPUT : PortDir := ⟨false, true⟩

def DIR_DUPLEX : PortDir := ⟨true, true⟩

/-- PortType. -/
inductive PortType where
  | TYPE_SOFTWARE
  | TYPE_HARDWARE
deriving DecidableEq, Repr

/-- ClientType. -/
inductive ClientType where
  | CLIENT_SOFTWARE
  | CLIENT_HARDWARE
deriving DecidableEq, Repr

/-- Client: m_inputInitialized/m_input and m_outputInitialized/m_output are
modelled as Option SeqAddr. -/
structure Client where
  m_clientId : Nat
  input : Option SeqAddr
  output : Option SeqAddr
deriving DecidableEq, Repr

/-- clients_t = std::map<int, Client>: an association list sorted by key. -/
abbrev clients_t := List (Nat × Client)

/-- std::map::find. -/
def clientsLookup : clients_t → Nat → Option Client
  | [], _ => none
  | (k, v) :: rest, id => if id = k then some v else clientsLookup rest id

/-- Store a value under a key, replacing an existing entry or inserting a
new one in key order (std::map insert/update semantics). -/
def clientsStore : clients_t → Nat → Client → clients_t
  | [], id, c => [(id, c)]
  | (k, v) :: rest, id, c =>
    if id = k then (id, c) :: rest
    else if id < k then (id, c) :: (k, v) :: rest
    else (k, v) :: clientsStore rest id c

/-- The fields of snd_seq_port_info_t consulted by the daemon. -/
structure PortInfo where
  addr : SeqAddr
  capRead : Bool
  capWrite : Bool
  capNoExport : Bool
  typeApplication : Bool
  portName : String

/-- portGetDir: SND_SEQ_PORT_CAP_READ gives DIR_OUTPUT,
SND_SEQ_PORT_CAP_WRITE gives DIR_INPUT. -/
def portGetDir (p : PortInfo) : PortDir :=
  ⟨p.capWrite, p.capRead⟩

/-- portGetType: "TouchOSC Bridge"-prefixed names are forced to hardware,
else SND_SEQ_PORT_TYPE_APPLICATION decides software vs hardware. -/
def portGetType (p : PortInfo) : PortType :=
  if isPrefixList "TouchOSC Bridge".data p.portName.data then .TYPE_HARDWARE
  else if p.typeApplication then .TYPE_SOFTWARE
  else .TYPE_HARDWARE

/-- The guarded slot-setting block of portAdd: set the output slot, then
the input slot, each only when the direction bit is on and the slot is
still unset. Returns the updated record and the gotAdded flag. -/
def portAddSlots (c0 : Client) (dir : PortDir) (addr : SeqAddr) :
    Client × Bool :=
  let r1 :=
    if dir.hasOutput && c0.output.isNone then
      ({ c0 with output := some addr }, true)
    else (c0, false)
  let r2 :=
    if dir.hasInput && r1.1.input.isNone then
      ({ r1.1 with input := some addr }, true)
    else (r1.1, false)
  (r2.1, r1.2 || r2.2)

/-- portAdd acting on the pair of registries (g_swClients, g_hwClients).
SND_SEQ_CLIENT_SYSTEM is client 0. Returns (gotAdded, sw, hw). -/
def portAdd (cinfo : Nat → Option String) (sw hw : clients_t)
    (p : PortInfo) : Bool × clients_t × clients_t :=
  if p.capNoExport then (false, sw, hw)
  else if p.addr.client = 0 then (false, sw, hw)
  else
    match cinfo p.addr.client with
    | none => (false, sw, hw)
    | some name =>
      if isPrefixList "Midi Through".data name.data then (false, sw, hw)
      else
        let type := portGetType p
        let dir := portGetDir p
        let list := if type = .TYPE_SOFTWARE then sw else hw
        let c0 := (clientsLookup list p.addr.client).getD
          ⟨p.addr.client, none, none⟩
        let r := portAddSlots c0 dir p.addr
        let list2 := clientsStore list p.addr.client r.1
        if type = .TYPE_SOFTWARE then (r.2, list2, hw)
        else (r.2, sw, list2)

/-- findClientForPort: search the software map first, then the hardware
map; also reports which map the client was found in. -/
def findClientForPort (sw hw : clients_t) (addr : SeqAddr) :
    Option (Client × ClientType) :=
  match clientsLookup sw addr.client with
  | some c => some (c, .CLIENT_SOFTWARE)
  | none =>
    match clientsLookup hw addr.client with
    | some c => some (c, .CLIENT_HARDWARE)
    | none => none

/-- The slot-clearing body of portRemove: clear whichever of the two slots
currently holds exactly this address. -/
def portRemoveClient (c : Client) (addr : SeqAddr) : Client :=
  let c1 := if c.input = some addr then { c with input := none } else c
  if c1.output = some addr then { c1 with output := none } else c1

/-- portRemove acting on the pair of registries. -/
def portRemove (sw hw : clients_t) (addr : SeqAddr) : clients_t × clients_t :=
  match findClientForPort sw hw addr with
  | none => (sw, hw)
  | some (c, .CLIENT_SOFTWARE) =>
    (clientsStore sw addr.client (portRemoveClient c addr), hw)
  | some (c, .CLIENT_HARDWARE) =>
    (sw, clientsStore hw addr.client (portRemoveClient c addr))

/-- portAutoConnect: scan both maps, the software map with strengths[0]
and the hardware map with strengths[1], and collect the connect calls
(output address, input address) in emission order. -/
def portAutoConnect (rules : ConnectionRules) (cinfo : Nat → Option String)
    (sw hw : clients_t) (addr : SeqAddr) (dir : PortDir) :
    List (SeqAddr × SeqAddr) :=
  match findClientForPort sw hw addr with
  | none => []
  | some (_, type) =>
    let s0 := if type = .CLIENT_SOFTWARE then Strength.STRENGTH_SPECIFIC
      else Strength.STRENGTH_VERY_VAGUE
    let s1 := if type = .CLIENT_SOFTWARE then Strength.STRENGTH_VERY_VAGUE
      else Strength.STRENGTH_SPECIFIC
    let scan := fun (list : clients_t) (strength : Strength) =>
      list.flatMap (fun entry =>
        (match entry.2.output with
         | some out =>
           if dir.hasInput &&
               rules.isConnectionAllowed cinfo out addr strength then
             [(out, addr)]
           else []
         | none => []) ++
        (match entry.2.input with
         | some inp =>
           if dir.hasOutput &&
               rules.isConnectionAllowed cinfo addr inp strength then
             [(addr, inp)]
           else []
         | none => []))
    scan sw s0 ++ scan hw s1

/-- One guarded connect attempt of portsConnectAll: if both addresses are
present, the pair is not in the handled set and the rules allow it, emit
the connect and mark the pair handled. -/
def connectCheck (rules : ConnectionRules) (cinfo : Nat → Option String)
    (minS : Strength) (out inp : Option SeqAddr)
    (handled : List (SeqAddr × SeqAddr)) :
    List (SeqAddr × SeqAddr) × List (SeqAddr × SeqAddr) :=
  match out, inp with
  | some o, some i =>
    if (o, i) ∈ handled then ([], handled)
    else if rules.isConnectionAllowed cinfo o i minS then
      ([(o, i)], (o, i) :: handled)
    else ([], handled)
  | _, _ => ([], handled)

/-- The inner loop of portsConnectAll: scan listB against the slots of one
listA client, threading the handled set. -/
def connAllInner (rules : ConnectionRules) (cinfo : Nat → Option String)
    (minS : Strength) (aIn aOut : Option SeqAddr) :
    clients_t → List (SeqAddr × SeqAddr) →
    List (SeqAddr × SeqAddr) × List (SeqAddr × SeqAddr)
  | [], handled => ([], handled)
  | b :: bs, handled =>
    let r1 := connectCheck rules cinfo minS aOut b.2.input handled
    let r2 := connectCheck rules cinfo minS b.2.output aIn r1.2
    let r3 := connAllInner rules cinfo minS aIn aOut bs r2.2
    (r1.1 ++ r2.1 ++ r3.1, r3.2)

/-- The outer loop of portsConnectAll: skip listA clients with neither
slot set, otherwise run the inner loop. -/
def connAllOuter (rules : ConnectionRules) (cinfo : Nat → Option String)
    (minS : Strength) (listB : clients_t) :
    clients_t → List (SeqAddr × SeqAddr) →
    List (SeqAddr × SeqAddr) × List (SeqAddr × SeqAddr)
  | [], handled => ([], handled)
  | a :: as, handled =>
    if a.2.input.isNone && a.2.output.isNone then
      connAllOuter rules cinfo minS listB as handled
    else
      let r1 := connAllInner rules cinfo minS a.2.input a.2.output listB handled
      let r2 := connAllOuter rules cinfo minS listB as r1.2
      (r1.1 ++ r2.1, r2.2)

/-- portsConnectAll: the bulk sweep, returning the connect calls issued. -/
def portsConnectAll (rules : ConnectionRules) (cinfo : Nat → Option String)
    (listA listB : clients_t) (minimumStrength : Strength) :
    List (SeqAddr × SeqAddr) :=
  (connAllOuter rules cinfo minimumStrength listB listA []).1

/-- The three startup passes issued at the end of portsInit. -/
def portsInitSweep (rules : ConnectionRules) (cinfo : Nat → Option String)
    (sw hw : clients_t) : List (SeqAddr × SeqAddr) :=
  portsConnectAll rules cinfo hw sw .STRENGTH_VERY_VAGUE ++
    portsConnectAll rules cinfo hw hw .STRENGTH_SPECIFIC ++
    portsConnectAll rules cinfo sw sw .STRENGTH_SPECIFIC

/-- The rule-adding switch at the end of parseRuleFile's loop, for a line
with direction token dir and trimmed operands left and right. -/
def addRulesForLine (r : ConnectionRules) (type : RuleType) (dir : PortDir)
    (left right : String) : ConnectionRules :=
  if dir = DIR_DUPLEX then
    let r1 := r.addRule type (some left) (some right)
    if left ≠ right then r1.addRule type (some right) (some left) else r1
  else if dir = DIR_INPUT then
    r.addRule type (some right) (some left)
  else if dir = DIR_OUTPUT then
    r.addRule type (some left) (some right)
  else r

/-
Spec-side definitions, written from the specification's words so that the
source functions above can be compared against them.
-/

/-- Binary maximum on strengths, through their enumerator values. -/
def Strength.max2 (a b : Strength) : Strength :=
  if a.toNat < b.toNat then b else a

/-- The per-rule match strength as the specification states it: both
patterns wildcard gives VeryVague; exactly one pattern the wildcard with
the other a substring of its name gives Vague; both patterns substrings
of their names gives Specific; anything else gives None (the cases read
in order). -/
def specRuleStrength (rule : String × String)
    (outputName inputName : String) : Strength :=
  if rule.1 = "*" ∧ rule.2 = "*" then .STRENGTH_VERY_VAGUE
  else if (rule.1 = "*" ∧ strFindSub inputName rule.2 = true) ∨
      (strFindSub outputName rule.1 = true ∧ rule.2 = "*") then .STRENGTH_VAGUE
  else if strFindSub outputName rule.1 = true ∧
      strFindSub inputName rule.2 = true then .STRENGTH_SPECIFIC
  else .STRENGTH_NONE

/-- The maximum strength attained by a rule collection on a name pair. -/
def maxRuleStrength (rules : List (String × String))
    (outputName inputName : String) : Strength :=
  (rules.map (fun rule =>
    ConnectionRules.evaluateRule rule outputName inputName)).foldr
    Strength.max2 .STRENGTH_NONE

/-- The rule collection selected by a rule kind (Allow or Disallow). -/
def rulesOf (r : ConnectionRules) (t : RuleType) : List (String × String) :=
  if t = .TYPE_ALLOW then r.m_allowRules else r.m_disallowRules

/-- A registry entry whose client has both an input and an output tracked. -/
def fullEntry (p : Nat × Client) : Prop :=
  p.2.input.isSome = true ∧ p.2.output.isSome = true

instance (p : Nat × Client) : Decidable (fullEntry p) := by
  unfold fullEntry; infer_instance

/-- The tracked input address of a client (defaulting when unset). -/
def inAddrD (c : Client) : SeqAddr :=
  c.input.getD ⟨0, 0⟩

/-- The tracked output address of a client (defaulting when unset). -/
def outAddrD (c : Client) : SeqAddr :=
  c.output.getD ⟨0, 0⟩

/-- Two registry entries track distinct output addresses and distinct
input addresses. -/
def distinctAddrs (p q : Nat × Client) : Prop :=
  outAddrD p.2 ≠ outAddrD q.2 ∧ inAddrD p.2 ≠ inAddrD q.2

instance (p q : Nat × Client) : Decidable (distinctAddrs p q) := by
  unfold distinctAddrs; infer_instance

/-- The links one listA client yields against listB in the bulk sweep:
for each listB client, its input is fed from the listA client's output,
and its output feeds the listA client's input. -/
def crossPairsA (ao ai : SeqAddr) (bs : clients_t) :
    List (SeqAddr × SeqAddr) :=
  bs.flatMap (fun b => [(ao, inAddrD b.2), (outAddrD b.2, ai)])

/-- All links of one bulk-sweep pass over fully-tracked registries, in
emission order. -/
def sweepPairs (la lb : clients_t) : List (SeqAddr × SeqAddr) :=
  la.flatMap (fun a => crossPairsA (outAddrD a.2) (inAddrD a.2) lb)

/-
Helper lemmas shared by the claim theorems.
-/

/-- The empty pattern is found in every haystack (find returns 0). -/
theorem strFindSub_empty (s : String) : strFindSub s "" = true := by
  show containsSub [] s.data = true
  cases s.data with
  | nil => rfl
  | cons c t => simp [containsSub, isPrefixList]

/-- Strength enumerator values determine the enumerator. -/
theorem Strength.toNat_inj (a b : Strength) (h : a.toNat = b.toNat) :
    a = b := by
  cases a <;> cases b <;> first
    | rfl
    | (exfalso; simp [Strength.toNat] at h)

/-- max2 computes the numeric maximum of the enumerator values. -/
theorem Strength.max2_toNat (a b : Strength) :
    (Strength.max2 a b).toNat = Nat.max a.toNat b.toNat := by
  unfold Strength.max2
  rcases Nat.lt_or_ge a.toNat b.toNat with h | h
  · simp [h, Nat.max_eq_right (Nat.le_of_lt h)]
  · simp [Nat.not_lt.mpr h, Nat.max_eq_left h]

/-- max2 is associative. -/
theorem Strength.max2_assoc (a b c : Strength) :
    Strength.max2 (Strength.max2 a b) c =
      Strength.max2 a (Strength.max2 b c) := by
  apply Strength.toNat_inj
  simp [Strength.max2_toNat, Nat.max_assoc]

/-- STRENGTH_NONE is a left identity for max2. -/
theorem Strength.max2_none_left (a : Strength) :
    Strength.max2 .STRENGTH_NONE a = a := by
  cases a <;> rfl

/-- The strongest-seen fold of ConnectionRules::evaluate computes max2 of
the accumulator and the collection maximum. -/
theorem foldl_evalStep (oN iN : String) (rules : List (String × String)) :
    ∀ (acc : Strength),
      rules.foldl (fun strength rule =>
        let s := ConnectionRules.evaluateRule rule oN iN
        if strength.toNat < s.toNat then s else strength) acc =
      Strength.max2 acc (maxRuleStrength rules oN iN) := by
  induction rules with
  | nil =>
    intro acc
    simp [maxRuleStrength, Strength.max2, Strength.toNat]
  | cons r rs ih =>
    intro acc
    have hm : maxRuleStrength (r :: rs) oN iN =
        Strength.max2 (ConnectionRules.evaluateRule r oN iN)
          (maxRuleStrength rs oN iN) := by
      simp [maxRuleStrength]
    rw [List.foldl_cons, ih, hm, ← Strength.max2_assoc]
    rfl

/-- ConnectionRules::evaluate computes the collection maximum on the
resolved client names. -/
theorem evaluate_eq_max (rules : List (String × String))
    (cinfo : Nat → Option String) (out inp : SeqAddr) :
    ConnectionRules.evaluate rules cinfo out inp =
      maxRuleStrength rules (getClientName cinfo out)
        (getClientName cinfo inp) := by
  unfold ConnectionRules.evaluate
  rw [foldl_evalStep]
  exact Strength.max2_none_left _

/-- Every rule's strength is bounded by the collection maximum. -/
theorem maxRuleStrength_ge (oN iN : String) :
    ∀ (rules : List (String × String)) (rule : String × String),
      rule ∈ rules →
      (ConnectionRules.evaluateRule rule oN iN).toNat ≤
        (maxRuleStrength rules oN iN).toNat := by
  intro rules
  induction rules with
  | nil => intro q hq; cases hq
  | cons r rs ih =>
    intro q hq
    have hm : maxRuleStrength (r :: rs) oN iN =
        Strength.max2 (ConnectionRules.evaluateRule r oN iN)
          (maxRuleStrength rs oN iN) := by
      simp [maxRuleStrength]
    rcases List.mem_cons.mp hq with h | h
    · subst h
      rw [hm, Strength.max2_toNat]
      exact Nat.le_max_left _ _
    · rw [hm, Strength.max2_toNat]
      exact le_trans (ih q h) (Nat.le_max_right _ _)

/-- The collection maximum is None or is attained by some rule. -/
theorem maxRuleStrength_attained (oN iN : String) :
    ∀ (rules : List (String × String)),
      maxRuleStrength rules oN iN = .STRENGTH_NONE ∨
        ∃ rule ∈ rules, maxRuleStrength rules oN iN =
          ConnectionRules.evaluateRule rule oN iN := by
  intro rules
  induction rules with
  | nil => left; rfl
  | cons r rs ih =>
    have hm : maxRuleStrength (r :: rs) oN iN =
        Strength.max2 (ConnectionRules.evaluateRule r oN iN)
          (maxRuleStrength rs oN iN) := by
      simp [maxRuleStrength]
    by_cases hlt : (ConnectionRules.evaluateRule r oN iN).toNat <
        (maxRuleStrength rs oN iN).toNat
    · have heq : maxRuleStrength (r :: rs) oN iN =
          maxRuleStrength rs oN iN := by
        rw [hm]; unfold Strength.max2; simp [hlt]
      rcases ih with h | ⟨q, hq, he⟩
      · left; rw [heq, h]
      · right; exact ⟨q, List.mem_cons_of_mem _ hq, by rw [heq, he]⟩
    · have heq : maxRuleStrength (r :: rs) oN iN =
          ConnectionRules.evaluateRule r oN iN := by
        rw [hm]; unfold Strength.max2; simp [hlt]
      right; exact ⟨r, List.mem_cons_self _ _, heq⟩

/-- The per-rule strength computed by the source agrees with the
specification's ordered case analysis. -/
theorem evaluateRule_eq_spec (rule : String × String) (o i : String) :
    ConnectionRules.evaluateRule rule o i = specRuleStrength rule o i := by
  unfold ConnectionRules.evaluateRule specRuleStrength
  by_cases h1 : rule.1 = "*" <;> by_cases h2 : rule.2 = "*" <;>
    by_cases h3 : strFindSub o rule.1 = true <;>
    by_cases h4 : strFindSub i rule.2 = true <;>
    simp [h1, h2, h3, h4]

/-- A pattern that passed the wildcard validity check makes addRule's
guard false. -/
theorem validPat_and_false (s : String)
    (h : ¬(hasStar s = true ∧ 1 < s.length)) :
    (hasStar s && decide (1 < s.length)) = false := by
  by_cases hs : hasStar s = true
  · simp [hs] at h ⊢
    exact h
  · simp [Bool.not_eq_true] at hs
    simp [hs]

/-- C10: addRule accepts the empty string as a pattern, and a rule with
both patterns empty evaluates to Specific on every name pair, strictly
stronger than the wildcard rule (*,*). -/
theorem addRule_empty_specific :
    (ConnectionRules.addRule emptyRules .TYPE_ALLOW (some "")
      (some "")).m_allowRules = [("", "")] ∧
    ∀ (o i : String),
      ConnectionRules.evaluateRule ("", "") o i = .STRENGTH_SPECIFIC ∧
      (ConnectionRules.evaluateRule ("*", "*") o i).toNat <
        (ConnectionRules.evaluateRule ("", "") o i).toNat := by
  refine ⟨by decide, ?_⟩
  intro o i
  have hne : ¬(("" : String) = "*") := by decide
  have h1 : ConnectionRules.evaluateRule ("", "") o i = .STRENGTH_SPECIFIC := by
    unfold ConnectionRules.evaluateRule
    simp [hne, strFindSub_empty]
  have h2 : ConnectionRules.evaluateRule ("*", "*") o i =
      .STRENGTH_VERY_VAGUE := rfl
  refine ⟨h1, ?_⟩
  rw [h1, h2]
  decide

/-- C7 counterexample: an empty pattern is not rejected; addRule with an
empty output pattern inserts the rule, so it is not a no-op. -/
theorem addRule_empty_accepted_cex :
    ConnectionRules.addRule emptyRules .TYPE_ALLOW (some "") (some "x") ≠
      emptyRules ∧
    (ConnectionRules.addRule emptyRules .TYPE_ALLOW (some "")
      (some "x")).m_allowRules = [("", "x")] := by
  constructor
  · decide
  · decide

/-- C1: isConnectionAllowed returns true exactly when the maximum strength
attained over the Allow collection reaches the minimum strength and is at
least the maximum attained over the Disallow collection; in particular a
tie between equal allow and disallow strengths that reaches the minimum
is allowed. -/
theorem isConnectionAllowed_spec (r : ConnectionRules)
    (cinfo : Nat → Option String) (out inp : SeqAddr) (minS : Strength) :
    (r.isConnectionAllowed cinfo out inp minS = true ↔
      (minS.toNat ≤ (maxRuleStrength r.m_allowRules (getClientName cinfo out)
          (getClientName cinfo inp)).toNat ∧
        (maxRuleStrength r.m_disallowRules (getClientName cinfo out)
          (getClientName cinfo inp)).toNat ≤
          (maxRuleStrength r.m_allowRules (getClientName cinfo out)
            (getClientName cinfo inp)).toNat)) ∧
    (maxRuleStrength r.m_allowRules (getClientName cinfo out)
        (getClientName cinfo inp) =
      maxRuleStrength r.m_disallowRules (getClientName cinfo out)
        (getClientName cinfo inp) →
      minS.toNat ≤ (maxRuleStrength r.m_allowRules (getClientName cinfo out)
        (getClientName cinfo inp)).toNat →
      r.isConnectionAllowed cinfo out inp minS = true) := by
  have hiff : r.isConnectionAllowed cinfo out inp minS = true ↔
      (minS.toNat ≤ (maxRuleStrength r.m_allowRules (getClientName cinfo out)
          (getClientName cinfo inp)).toNat ∧
        (maxRuleStrength r.m_disallowRules (getClientName cinfo out)
          (getClientName cinfo inp)).toNat ≤
          (maxRuleStrength r.m_allowRules (getClientName cinfo out)
            (getClientName cinfo inp)).toNat) := by
    unfold ConnectionRules.isConnectionAllowed
    rw [evaluate_eq_max, evaluate_eq_max]
    simp
  exact ⟨hiff, fun he hm => hiff.mpr ⟨hm, by rw [← he]⟩⟩

/-- C1 witness: with Allow (*,*) and Disallow (*,*) both attaining
VeryVague, the tie is resolved toward allow. -/
theorem isConnectionAllowed_spec_witness :
    maxRuleStrength [("*", "*")] (getClientName (fun _ => some "A") ⟨1, 0⟩)
        (getClientName (fun _ => some "A") ⟨2, 0⟩) =
      maxRuleStrength [("*", "*")] (getClientName (fun _ => some "A") ⟨1, 0⟩)
        (getClientName (fun _ => some "A") ⟨2, 0⟩) ∧
    ConnectionRules.isConnectionAllowed ⟨[("*", "*")], [("*", "*")]⟩
      (fun _ => some "A") ⟨1, 0⟩ ⟨2, 0⟩ .STRENGTH_VERY_VAGUE = true :=
  ⟨rfl, (isConnectionAllowed_spec ⟨[("*", "*")], [("*", "*")]⟩
    (fun _ => some "A") ⟨1, 0⟩ ⟨2, 0⟩ .STRENGTH_VERY_VAGUE).2 rfl (by decide)⟩

/-- C2: the per-rule strength is VeryVague for wildcard/wildcard, Vague
for wildcard against a matching substring on the other side, Specific
when both patterns are substrings of their names, None otherwise; a
collection's strength is the maximum per-rule strength: it bounds every
rule's strength and is None or attained by some rule. -/
theorem evaluate_matchStrength_spec :
    (∀ (rule : String × String) (o i : String),
      ConnectionRules.evaluateRule rule o i = specRuleStrength rule o i) ∧
    (∀ (rules : List (String × String)) (cinfo : Nat → Option String)
      (out inp : SeqAddr),
      (∀ rule ∈ rules,
        (ConnectionRules.evaluateRule rule (getClientName cinfo out)
          (getClientName cinfo inp)).toNat ≤
          (ConnectionRules.evaluate rules cinfo out inp).toNat) ∧
      (ConnectionRules.evaluate rules cinfo out inp = .STRENGTH_NONE ∨
        ∃ rule ∈ rules, ConnectionRules.evaluate rules cinfo out inp =
          ConnectionRules.evaluateRule rule (getClientName cinfo out)
            (getClientName cinfo inp))) := by
  refine ⟨evaluateRule_eq_spec, ?_⟩
  intro rules cinfo out inp
  constructor
  · intro rule h
    rw [evaluate_eq_max]
    exact maxRuleStrength_ge _ _ rules rule h
  · rw [evaluate_eq_max]
    exact maxRuleStrength_attained _ _ rules

/-- C2 witness: the collection maximum bounds a concrete member rule. -/
theorem evaluate_matchStrength_spec_witness :
    ("Syn", "*") ∈ [("*", "*"), ("Syn", "*")] ∧
    (ConnectionRules.evaluateRule ("Syn", "*")
        (getClientName (fun _ => some "MySynth") ⟨1, 0⟩)
        (getClientName (fun _ => some "Rec") ⟨2, 0⟩)).toNat ≤
      (ConnectionRules.evaluate [("*", "*"), ("Syn", "*")]
        (fun _ => some (if True then "MySynth" else "Rec")) ⟨1, 0⟩ ⟨2, 0⟩).toNat :=
  ⟨by decide,
    (evaluate_matchStrength_spec.2 [("*", "*"), ("Syn", "*")]
      (fun _ => some (if True then "MySynth" else "Rec")) ⟨1, 0⟩ ⟨2, 0⟩).1
      ("Syn", "*") (by decide)⟩

/-- C6: when no rules were loaded, main installs the single Allow (*,*)
rule, and under exactly that rule set every name pair is allowed at the
VeryVague minimum. -/
theorem defaultRule_allows_all (r : ConnectionRules)
    (h : r.hasRules = false) :
    installDefaultRule r = ⟨[("*", "*")], []⟩ ∧
    ∀ (cinfo : Nat → Option String) (out inp : SeqAddr),
      (installDefaultRule r).isConnectionAllowed cinfo out inp
        .STRENGTH_VERY_VAGUE = true := by
  obtain ⟨al, dl⟩ := r
  have hal : al = [] ∧ dl = [] := by
    simpa [ConnectionRules.hasRules] using h
  obtain ⟨h1, h2⟩ := hal
  subst h1; subst h2
  constructor
  · rfl
  · intro cinfo out inp
    rfl

/-- C6 witness. -/
theorem defaultRule_allows_all_witness :
    ConnectionRules.hasRules ⟨[], []⟩ = false ∧
    (installDefaultRule ⟨[], []⟩).isConnectionAllowed
      (fun n => some (if n = 1 then "A" else "B")) ⟨1, 0⟩ ⟨2, 0⟩
      .STRENGTH_VERY_VAGUE = true :=
  ⟨by decide, (defaultRule_allows_all ⟨[], []⟩ (by decide)).2 _ _ _⟩

/-- C7 (amended): addRule is a rejecting no-op exactly when a pattern is
null, when a pattern contains the wildcard character and is longer than
one character, or when the kind is unspecified; empty patterns are
accepted. Otherwise it appends the rule to the selected collection (no
deduplication). A mixed-wildcard pattern such as Foo*Bar is rejected, so
hasRules stays false when it was the only submission. -/
theorem addRule_reject_spec (r : ConnectionRules) (t : RuleType)
    (p : Option String) (o i : String) :
    ConnectionRules.addRule r t none p = r ∧
    ConnectionRules.addRule r t p none = r ∧
    (ConnectionRules.addRule r t (some o) (some i) = r ↔
      (t = .TYPE_UNKNOWN ∨ (hasStar o = true ∧ 1 < o.length) ∨
        (hasStar i = true ∧ 1 < i.length))) ∧
    (t = .TYPE_ALLOW →
      ¬(hasStar o = true ∧ 1 < o.length) →
      ¬(hasStar i = true ∧ 1 < i.length) →
      ConnectionRules.addRule r t (some o) (some i) =
        { r with m_allowRules := r.m_allowRules ++ [(o, i)] }) ∧
    (t = .TYPE_DISALLOW →
      ¬(hasStar o = true ∧ 1 < o.length) →
      ¬(hasStar i = true ∧ 1 < i.length) →
      ConnectionRules.addRule r t (some o) (some i) =
        { r with m_disallowRules := r.m_disallowRules ++ [(o, i)] }) ∧
    ConnectionRules.hasRules
      (ConnectionRules.addRule emptyRules t (some "Foo*Bar") (some i)) = false ∧
    ConnectionRules.hasRules
      (ConnectionRules.addRule emptyRules t (some i) (some "Foo*Bar")) = false := by
  obtain ⟨al, dl⟩ := r
  have hfb : (hasStar "Foo*Bar" && decide (1 < ("Foo*Bar" : String).length)) =
      true := by decide
  refine ⟨rfl, by cases p <;> rfl, ?_, ?_, ?_, ?_, ?_⟩
  · constructor
    · intro h
      by_cases ht : t = RuleType.TYPE_UNKNOWN
      · exact Or.inl ht
      · by_cases ho : hasStar o = true ∧ 1 < o.length
        · exact Or.inr (Or.inl ho)
        · by_cases hi : hasStar i = true ∧ 1 < i.length
          · exact Or.inr (Or.inr hi)
          · exfalso
            cases t with
            | TYPE_UNKNOWN => exact ht rfl
            | TYPE_ALLOW =>
              simp [ConnectionRules.addRule, validPat_and_false o ho,
                validPat_and_false i hi] at h
            | TYPE_DISALLOW =>
              simp [ConnectionRules.addRule, validPat_and_false o ho,
                validPat_and_false i hi] at h
    · intro h
      rcases h with ht | ho | hi
      · simp [ConnectionRules.addRule, ht]
      · have ho' : (hasStar o && decide (1 < o.length)) = true := by
          simp [ho.1, ho.2]
        cases t <;> simp [ConnectionRules.addRule, ho']
      · have hi' : (hasStar i && decide (1 < i.length)) = true := by
          simp [hi.1, hi.2]
        by_cases ho : hasStar o = true ∧ 1 < o.length
        · have ho' : (hasStar o && decide (1 < o.length)) = true := by
            simp [ho.1, ho.2]
          cases t <;> simp [ConnectionRules.addRule, ho', hi']
        · cases t <;> simp [ConnectionRules.addRule,
            validPat_and_false o ho, hi']
  · intro ht ho hi
    subst ht
    simp [ConnectionRules.addRule, validPat_and_false o ho,
      validPat_and_false i hi]
  · intro ht ho hi
    subst ht
    simp [ConnectionRules.addRule, validPat_and_false o ho,
      validPat_and_false i hi]
  · cases t <;>
      simp [ConnectionRules.addRule, hfb, emptyRules, ConnectionRules.hasRules]
  · by_cases hio : hasStar i = true ∧ 1 < i.length
    · have hi' : (hasStar i && decide (1 < i.length)) = true := by
        simp [hio.1, hio.2]
      cases t <;>
        simp [ConnectionRules.addRule, hi', emptyRules, ConnectionRules.hasRules]
    · cases t <;>
        simp [ConnectionRules.addRule, validPat_and_false i hio, hfb,
          emptyRules, ConnectionRules.hasRules]

/-- C7 witness: a well-formed rule is appended to the Allow collection. -/
theorem addRule_reject_spec_witness :
    ConnectionRules.addRule emptyRules .TYPE_ALLOW (some "a") (some "b") =
      { emptyRules with
        m_allowRules := emptyRules.m_allowRules ++ [("a", "b")] } :=
  (addRule_reject_spec emptyRules .TYPE_ALLOW (some "x") "a" "b").2.2.2.1
    rfl (by decide) (by decide)

/-- C8: under an active section of kind t with operands L and R, the
direction token decides which rules are added: duplex adds (L,R) and,
unless L equals R, also (R,L); the output token adds only (L,R); the
input token adds only (R,L). -/
theorem parseRuleLine_directions (r : ConnectionRules) (t : RuleType)
    (lf rt : String) (ht : t ≠ .TYPE_UNKNOWN)
    (hl : ¬(hasStar lf = true ∧ 1 < lf.length))
    (hr : ¬(hasStar rt = true ∧ 1 < rt.length)) :
    rulesOf (addRulesForLine r t DIR_DUPLEX lf rt) t =
      rulesOf r t ++ (lf, rt) :: (if lf = rt then [] else [(rt, lf)]) ∧
    rulesOf (addRulesForLine r t DIR_OUTPUT lf rt) t =
      rulesOf r t ++ [(lf, rt)] ∧
    rulesOf (addRulesForLine r t DIR_INPUT lf rt) t =
      rulesOf r t ++ [(rt, lf)] := by
  have hl' := validPat_and_false lf hl
  have hr' := validPat_and_false rt hr
  have hdup : ¬(DIR_OUTPUT = DIR_DUPLEX) := by decide
  have hdup2 : ¬(DIR_INPUT = DIR_DUPLEX) := by decide
  have hoi : ¬(DIR_INPUT = DIR_OUTPUT) := by decide
  have hoi2 : ¬(DIR_OUTPUT = DIR_INPUT) := by decide
  cases t with
  | TYPE_UNKNOWN => exact absurd rfl ht
  | TYPE_ALLOW =>
    by_cases he : lf = rt <;>
      simp [addRulesForLine, ConnectionRules.addRule, rulesOf, hl', hr',
        hdup, hdup2, hoi, hoi2, he]
  | TYPE_DISALLOW =>
    by_cases he : lf = rt <;>
      simp [addRulesForLine, ConnectionRules.addRule, rulesOf, hl', hr',
        hdup, hdup2, hoi, hoi2, he]

/-- C8 witness: duplex with distinct operands adds both directions. -/
theorem parseRuleLine_directions_witness :
    rulesOf (addRulesForLine emptyRules .TYPE_ALLOW DIR_DUPLEX "a" "b")
        .TYPE_ALLOW =
      rulesOf emptyRules .TYPE_ALLOW ++
        ("a", "b") :: (if ("a" : String) = "b" then [] else [("b", "a")]) :=
  (parseRuleLine_directions emptyRules .TYPE_ALLOW "a" "b" (by decide)
    (by decide) (by decide)).1

/-- Looking up the stored key finds the stored record. -/
theorem clientsLookup_store_self (l : clients_t) (id : Nat) (c : Client) :
    clientsLookup (clientsStore l id c) id = some c := by
  induction l with
  | nil => simp [clientsStore, clientsLookup]
  | cons kv rest ih =>
    obtain ⟨k, v⟩ := kv
    by_cases h : id = k
    · simp [clientsStore, h, clientsLookup]
    · by_cases h2 : id < k
      · simp [clientsStore, h, h2, clientsLookup]
      · simp [clientsStore, h, h2, clientsLookup, ih]

/-- Storing under one key leaves every other key's lookup unchanged. -/
theorem clientsLookup_store_other (l : clients_t) (id j : Nat) (c : Client)
    (h : j ≠ id) :
    clientsLookup (clientsStore l id c) j = clientsLookup l j := by
  induction l with
  | nil => simp [clientsStore, clientsLookup, h]
  | cons kv rest ih =>
    obtain ⟨k, v⟩ := kv
    by_cases h1 : id = k
    · subst h1
      simp [clientsStore, clientsLookup, h]
    · by_cases h2 : id < k
      · simp [clientsStore, h1, h2, clientsLookup, h]
      · by_cases h3 : j = k <;> simp [clientsStore, h1, h2, clientsLookup, h3, ih]

/-- A successful lookup exhibits a list entry. -/
theorem clientsLookup_mem (l : clients_t) (id : Nat) (c : Client)
    (h : clientsLookup l id = some c) : (id, c) ∈ l := by
  induction l with
  | nil => simp [clientsLookup] at h
  | cons kv rest ih =>
    obtain ⟨k, v⟩ := kv
    by_cases h1 : id = k
    · subst h1
      simp [clientsLookup] at h
      subst h
      exact List.mem_cons_self _ _
    · simp [clientsLookup, h1] at h
      exact List.mem_cons_of_mem _ (ih h)

/-- The slot-setting block of portAdd characterised: a direction sets its
slot only when the bit is on and the slot was unset, and gotAdded reports
whether either slot was newly set. -/
theorem portAddSlots_spec (c0 : Client) (dir : PortDir) (addr : SeqAddr) :
    portAddSlots c0 dir addr =
      ({ m_clientId := c0.m_clientId,
         input := if dir.hasInput = true ∧ c0.input = none then some addr
           else c0.input,
         output := if dir.hasOutput = true ∧ c0.output = none then some addr
           else c0.output },
       ((dir.hasOutput && c0.output.isNone) ||
         (dir.hasInput && c0.input.isNone))) := by
  obtain ⟨cid, ci, co⟩ := c0
  obtain ⟨di, dout⟩ := dir
  cases di <;> cases dout <;> cases ci <;> cases co <;>
    simp [portAddSlots]

/-- C4: on a fact that passes the tracking filters, the first endpoint per
direction wins: an already-set slot is never overwritten, a direction bit
sets its slot only when unset, and portAdd returns true exactly when at
least one of the fact's direction slots was newly set. -/
theorem portAdd_first_wins (cinfo : Nat → Option String) (sw hw : clients_t)
    (p : PortInfo) (name : String) (c0 : Client)
    (h1 : p.capNoExport = false)
    (h2 : p.addr.client ≠ 0)
    (h3 : cinfo p.addr.client = some name)
    (h4 : isPrefixList "Midi Through".data name.data = false)
    (h5 : (clientsLookup (if portGetType p = .TYPE_SOFTWARE then sw else hw)
      p.addr.client).getD ⟨p.addr.client, none, none⟩ = c0) :
    clientsLookup
        (if portGetType p = .TYPE_SOFTWARE then (portAdd cinfo sw hw p).2.1
         else (portAdd cinfo sw hw p).2.2) p.addr.client =
      some
        { m_clientId := c0.m_clientId,
          input := if p.capWrite = true ∧ c0.input = none then some p.addr
            else c0.input,
          output := if p.capRead = true ∧ c0.output = none then some p.addr
            else c0.output } ∧
    ((portAdd cinfo sw hw p).1 = true ↔
      ((p.capRead = true ∧ c0.output = none) ∨
        (p.capWrite = true ∧ c0.input = none))) := by
  have hdir : portGetDir p = ⟨p.capWrite, p.capRead⟩ := rfl
  by_cases htype : portGetType p = .TYPE_SOFTWARE
  · simp only [portAdd, h1, h2, h3, h4, htype, if_true, if_false,
      Bool.false_eq_true, ite_true, ite_false] at h5 ⊢
    rw [h5, portAddSlots_spec, hdir]
    simp only [Bool.false_eq_true, if_false, ite_true]
    refine ⟨?_, ?_⟩
    · rw [clientsLookup_store_self]
    · simp [Option.isNone_iff_eq_none]
  · simp only [portAdd, h1, h2, h3, h4, htype, if_true, if_false,
      Bool.false_eq_true, ite_true, ite_false] at h5 ⊢
    rw [h5, portAddSlots_spec, hdir]
    simp only [Bool.false_eq_true, if_false, ite_true]
    refine ⟨?_, ?_⟩
    · rw [clientsLookup_store_self]
    · simp [Option.isNone_iff_eq_none]

/-- C4 witness: a duplicate-direction fact neither overwrites the tracked
input nor reports a new tracking. -/
theorem portAdd_first_wins_witness :
    clientsLookup [(3, ⟨3, some ⟨3, 0⟩, none⟩)] 3 =
      some ⟨3, some ⟨3, 0⟩, none⟩ ∧
    (portAdd (fun n => if n = 3 then some "Foo" else none)
      [(3, ⟨3, some ⟨3, 0⟩, none⟩)] []
      ⟨⟨3, 1⟩, false, true, false, true, "P"⟩).1 = false ∧
    clientsLookup
        (portAdd (fun n => if n = 3 then some "Foo" else none)
          [(3, ⟨3, some ⟨3, 0⟩, none⟩)] []
          ⟨⟨3, 1⟩, false, true, false, true, "P"⟩).2.1 3 =
      some ⟨3, some ⟨3, 0⟩, none⟩ := by
  have h := portAdd_first_wins (fun n => if n = 3 then some "Foo" else none)
    [(3, ⟨3, some ⟨3, 0⟩, none⟩)] []
    ⟨⟨3, 1⟩, false, true, false, true, "P"⟩ "Foo" ⟨3, some ⟨3, 0⟩, none⟩
    rfl (by decide) rfl (by decide) (by decide)
  refine ⟨by decide, ?_, ?_⟩
  · have h2 := h.2
    simp at h2
    exact h2
  · have h1 := h.1
    simpa using h1

/-- The slot-clearing body of portRemove characterised. -/
theorem portRemoveClient_spec (c : Client) (addr : SeqAddr) :
    portRemoveClient c addr =
      { m_clientId := c.m_clientId,
        input := if c.input = some addr then none else c.input,
        output := if c.output = some addr then none else c.output } := by
  obtain ⟨cid, ci, co⟩ := c
  unfold portRemoveClient
  by_cases hi : ci = some addr <;> by_cases ho : co = some addr <;>
    simp [hi, ho]

/-- C5: removal clears a slot only when it holds exactly the removed
address, is a no-op for an unknown client, keeps the client record
present, and leaves every other client and the other registry unchanged. -/
theorem portRemove_frame (sw hw : clients_t) (addr : SeqAddr) :
    (findClientForPort sw hw addr = none →
      portRemove sw hw addr = (sw, hw)) ∧
    (∀ c, clientsLookup sw addr.client = some c →
      (portRemove sw hw addr).2 = hw ∧
      clientsLookup (portRemove sw hw addr).1 addr.client =
        some { m_clientId := c.m_clientId,
               input := if c.input = some addr then none else c.input,
               output := if c.output = some addr then none else c.output } ∧
      ∀ j, j ≠ addr.client →
        clientsLookup (portRemove sw hw addr).1 j = clientsLookup sw j) ∧
    (clientsLookup sw addr.client = none →
      ∀ c, clientsLookup hw addr.client = some c →
      (portRemove sw hw addr).1 = sw ∧
      clientsLookup (portRemove sw hw addr).2 addr.client =
        some { m_clientId := c.m_clientId,
               input := if c.input = some addr then none else c.input,
               output := if c.output = some addr then none else c.output } ∧
      ∀ j, j ≠ addr.client →
        clientsLookup (portRemove sw hw addr).2 j = clientsLookup hw j) := by
  refine ⟨?_, ?_, ?_⟩
  · intro h
    simp [portRemove, h]
  · intro c hc
    have hfind : findClientForPort sw hw addr = some (c, .CLIENT_SOFTWARE) := by
      simp [findClientForPort, hc]
    refine ⟨by simp [portRemove, hfind], ?_, ?_⟩
    · simp only [portRemove, hfind]
      rw [clientsLookup_store_self, portRemoveClient_spec]
    · intro j hj
      simp only [portRemove, hfind]
      exact clientsLookup_store_other sw addr.client j _ hj
  · intro hsw c hc
    have hfind : findClientForPort sw hw addr = some (c, .CLIENT_HARDWARE) := by
      simp [findClientForPort, hsw, hc]
    refine ⟨by simp [portRemove, hfind], ?_, ?_⟩
    · simp only [portRemove, hfind]
      rw [clientsLookup_store_self, portRemoveClient_spec]
    · intro j hj
      simp only [portRemove, hfind]
      exact clientsLookup_store_other hw addr.client j _ hj

/-- C5 witness: removing the tracked input address clears only the input
slot and keeps the record and the other registry intact. -/
theorem portRemove_frame_witness :
    clientsLookup [(4, ⟨4, some ⟨4, 2⟩, some ⟨4, 9⟩⟩)] 4 =
      some ⟨4, some ⟨4, 2⟩, some ⟨4, 9⟩⟩ ∧
    (portRemove [(4, ⟨4, some ⟨4, 2⟩, some ⟨4, 9⟩⟩)]
      [(7, ⟨7, none, none⟩)] ⟨4, 2⟩).2 = [(7, ⟨7, none, none⟩)] ∧
    clientsLookup
        (portRemove [(4, ⟨4, some ⟨4, 2⟩, some ⟨4, 9⟩⟩)]
          [(7, ⟨7, none, none⟩)] ⟨4, 2⟩).1 4 =
      some ⟨4, none, some ⟨4, 9⟩⟩ := by
  have h := (portRemove_frame [(4, ⟨4, some ⟨4, 2⟩, some ⟨4, 9⟩⟩)]
    [(7, ⟨7, none, none⟩)] ⟨4, 2⟩).2.1 ⟨4, some ⟨4, 2⟩, some ⟨4, 9⟩⟩ rfl
  refine ⟨by decide, h.1, ?_⟩
  have h2 := h.2.1
  simpa using h2

/-- C9: the reactive scan does not exclude the new endpoint's own owning
client: with the owner found in the registry, an appeared Input whose
owner also tracks an Output (and symmetrically an appeared Output against
a tracked Input) is checked against the owner itself at the same-role
Specific threshold, and the allowed self-link is emitted. -/
theorem portAutoConnect_self_candidate (rules : ConnectionRules)
    (cinfo : Nat → Option String) (sw hw : clients_t) (addr : SeqAddr)
    (dir : PortDir) (c : Client) (t : ClientType)
    (hfind : findClientForPort sw hw addr = some (c, t)) :
    (∀ outA, dir.hasInput = true → c.output = some outA →
      rules.isConnectionAllowed cinfo outA addr .STRENGTH_SPECIFIC = true →
      (outA, addr) ∈ portAutoConnect rules cinfo sw hw addr dir) ∧
    (∀ inA, dir.hasOutput = true → c.input = some inA →
      rules.isConnectionAllowed cinfo addr inA .STRENGTH_SPECIFIC = true →
      (addr, inA) ∈ portAutoConnect rules cinfo sw hw addr dir) := by
  have hcases : (clientsLookup sw addr.client = some c ∧
      t = .CLIENT_SOFTWARE) ∨
      (clientsLookup sw addr.client = none ∧
        clientsLookup hw addr.client = some c ∧ t = .CLIENT_HARDWARE) := by
    unfold findClientForPort at hfind
    cases hsw : clientsLookup sw addr.client with
    | some c2 =>
      rw [hsw] at hfind
      simp at hfind
      exact Or.inl ⟨by rw [hfind.1], hfind.2.symm⟩
    | none =>
      rw [hsw] at hfind
      cases hhw : clientsLookup hw addr.client with
      | some c2 =>
        rw [hhw] at hfind
        simp at hfind
        exact Or.inr ⟨rfl, by rw [hfind.1], hfind.2.symm⟩
      | none =>
        rw [hhw] at hfind
        simp at hfind
  rcases hcases with ⟨hsw, hty⟩ | ⟨hsw, hhw, hty⟩
  · subst hty
    constructor
    · intro outA hdin hcout hallow
      simp only [portAutoConnect, findClientForPort, hsw]
      apply List.mem_append_left
      rw [List.mem_flatMap]
      refine ⟨(addr.client, c), clientsLookup_mem sw addr.client c hsw, ?_⟩
      simp [hcout, hdin, hallow]
    · intro inA hdout hcin hallow
      simp only [portAutoConnect, findClientForPort, hsw]
      apply List.mem_append_left
      rw [List.mem_flatMap]
      refine ⟨(addr.client, c), clientsLookup_mem sw addr.client c hsw, ?_⟩
      apply List.mem_append_right
      simp [hcin, hdout, hallow]
  · subst hty
    constructor
    · intro outA hdin hcout hallow
      simp only [portAutoConnect, findClientForPort, hsw, hhw]
      apply List.mem_append_right
      rw [List.mem_flatMap]
      refine ⟨(addr.client, c), clientsLookup_mem hw addr.client c hhw, ?_⟩
      simp [hcout, hdin, hallow]
    · intro inA hdout hcin hallow
      simp only [portAutoConnect, findClientForPort, hsw, hhw]
      apply List.mem_append_right
      rw [List.mem_flatMap]
      refine ⟨(addr.client, c), clientsLookup_mem hw addr.client c hhw, ?_⟩
      apply List.mem_append_right
      simp [hcin, hdout, hallow]

/-- C9 witness: a client owning both ports of a pair is auto-connected to
itself when a Specific-strength rule allows it. -/
theorem portAutoConnect_self_candidate_witness :
    findClientForPort [(5, ⟨5, some ⟨5, 1⟩, some ⟨5, 0⟩⟩)] [] ⟨5, 1⟩ =
      some (⟨5, some ⟨5, 1⟩, some ⟨5, 0⟩⟩, .CLIENT_SOFTWARE) ∧
    (⟨5, 0⟩, ⟨5, 1⟩) ∈ portAutoConnect ⟨[("A", "A")], []⟩
      (fun _ => some "An App") [(5, ⟨5, some ⟨5, 1⟩, some ⟨5, 0⟩⟩)] []
      ⟨5, 1⟩ DIR_INPUT :=
  ⟨by decide,
    (portAutoConnect_self_candidate ⟨[("A", "A")], []⟩ (fun _ => some "An App")
      [(5, ⟨5, some ⟨5, 1⟩, some ⟨5, 0⟩⟩)] [] ⟨5, 1⟩ DIR_INPUT
      ⟨5, some ⟨5, 1⟩, some ⟨5, 0⟩⟩ .CLIENT_SOFTWARE (by decide)).1
      ⟨5, 0⟩ rfl rfl (by decide)⟩

/-- Under the allow-all policy every pair is allowed at VeryVague. -/
theorem allowAll_veryVague (cinfo : Nat → Option String) (o i : SeqAddr) :
    allowAllRules.isConnectionAllowed cinfo o i .STRENGTH_VERY_VAGUE = true :=
  rfl

/-- Under the allow-all policy no pair reaches Specific. -/
theorem allowAll_specific (cinfo : Nat → Option String) (o i : SeqAddr) :
    allowAllRules.isConnectionAllowed cinfo o i .STRENGTH_SPECIFIC = false :=
  rfl

theorem crossPairsA_cons (ao ai : SeqAddr) (b : Nat × Client)
    (bs : clients_t) :
    crossPairsA ao ai (b :: bs) =
      (ao, inAddrD b.2) :: (outAddrD b.2, ai) :: crossPairsA ao ai bs := by
  simp [crossPairsA]

theorem mem_crossPairsA (ao ai : SeqAddr) (bs : clients_t)
    (p : SeqAddr × SeqAddr) :
    p ∈ crossPairsA ao ai bs ↔
      ∃ b ∈ bs, p = (ao, inAddrD b.2) ∨ p = (outAddrD b.2, ai) := by
  simp [crossPairsA, List.mem_flatMap]

theorem sweepPairs_cons (a : Nat × Client) (la lb : clients_t) :
    sweepPairs (a :: la) lb =
      crossPairsA (outAddrD a.2) (inAddrD a.2) lb ++ sweepPairs la lb := by
  simp [sweepPairs]

theorem mem_sweepPairs (la lb : clients_t) (p : SeqAddr × SeqAddr) :
    p ∈ sweepPairs la lb ↔
      ∃ a ∈ la, p ∈ crossPairsA (outAddrD a.2) (inAddrD a.2) lb := by
  simp [sweepPairs, List.mem_flatMap]

theorem crossPairsA_length (ao ai : SeqAddr) (bs : clients_t) :
    (crossPairsA ao ai bs).length = 2 * bs.length := by
  induction bs with
  | nil => rfl
  | cons b bs ih =>
    rw [crossPairsA_cons]
    simp only [List.length_cons, ih]
    omega

theorem sweepPairs_length (la lb : clients_t) :
    (sweepPairs la lb).length = la.length * (2 * lb.length) := by
  induction la with
  | nil => simp [sweepPairs]
  | cons a la ih =>
    rw [sweepPairs_cons]
    simp only [List.length_append, List.length_cons, crossPairsA_length, ih]
    ring

/-- The link list one client contributes has no duplicates when tracked
addresses are distinct across clients. -/
theorem crossPairsA_nodup (a : Nat × Client) (bs : clients_t)
    (ha : ∀ b ∈ bs, distinctAddrs a b)
    (hbs : bs.Pairwise distinctAddrs) :
    (crossPairsA (outAddrD a.2) (inAddrD a.2) bs).Nodup := by
  induction bs with
  | nil => simp [crossPairsA]
  | cons b bs ih =>
    rw [crossPairsA_cons]
    rw [List.pairwise_cons] at hbs
    obtain ⟨hb, hbs2⟩ := hbs
    have hab := ha b (List.mem_cons_self _ _)
    have ih2 := ih (fun x hx => ha x (List.mem_cons_of_mem _ hx)) hbs2
    rw [List.nodup_cons, List.nodup_cons]
    refine ⟨?_, ?_, ih2⟩
    · intro hm
      rcases List.mem_cons.mp hm with he | hm2
      · exact hab.1 (congrArg Prod.fst he)
      · rw [mem_crossPairsA] at hm2
        obtain ⟨q, hq, hcase⟩ := hm2
        rcases hcase with he | he
        · exact (hb q hq).2 (congrArg Prod.snd he)
        · exact (ha q (List.mem_cons_of_mem _ hq)).1 (congrArg Prod.fst he)
    · intro hm2
      rw [mem_crossPairsA] at hm2
      obtain ⟨q, hq, hcase⟩ := hm2
      rcases hcase with he | he
      · exact hab.1 (congrArg Prod.fst he).symm
      · exact (hb q hq).1 (congrArg Prod.fst he)

/-- All links of one bulk-sweep pass are pairwise distinct when tracked
addresses are distinct across clients. -/
theorem sweepPairs_nodup (lb : clients_t) :
    ∀ (la : clients_t), (la ++ lb).Pairwise distinctAddrs →
      (sweepPairs la lb).Nodup := by
  intro la
  induction la with
  | nil => intro _; simp [sweepPairs]
  | cons a la ih =>
    intro hpw
    rw [List.cons_append, List.pairwise_cons] at hpw
    obtain ⟨ha, hpw2⟩ := hpw
    rw [sweepPairs_cons, List.nodup_append]
    refine ⟨?_, ih hpw2, ?_⟩
    · exact crossPairsA_nodup a lb
        (fun b hb => ha b (List.mem_append_right _ hb))
        (List.pairwise_append.mp hpw2).2.1
    · intro p hp1 hp2
      rw [mem_crossPairsA] at hp1
      rw [mem_sweepPairs] at hp2
      obtain ⟨b, hb, hc1⟩ := hp1
      obtain ⟨a2, ha2, hp3⟩ := hp2
      rw [mem_crossPairsA] at hp3
      obtain ⟨b2, hb2, hc2⟩ := hp3
      have hdab2 : distinctAddrs a b2 := ha b2 (List.mem_append_right _ hb2)
      have hdaa2 : distinctAddrs a a2 := ha a2 (List.mem_append_left _ ha2)
      rcases hc1 with he1 | he1 <;> rcases hc2 with he2 | he2
      · exact hdaa2.1 (congrArg Prod.fst (he1.symm.trans he2))
      · exact hdab2.1 (congrArg Prod.fst (he1.symm.trans he2))
      · exact hdab2.2 (congrArg Prod.snd (he1.symm.trans he2))
      · exact hdaa2.2 (congrArg Prod.snd (he1.symm.trans he2))

/-- When the rules reject every pair at the given minimum, a connect
check does nothing. -/
theorem connectCheck_none (rules : ConnectionRules)
    (cinfo : Nat → Option String) (minS : Strength)
    (out inp : Option SeqAddr) (handled : List (SeqAddr × SeqAddr))
    (h : ∀ o i, rules.isConnectionAllowed cinfo o i minS = false) :
    connectCheck rules cinfo minS out inp handled = ([], handled) := by
  cases out <;> cases inp <;> simp [connectCheck, h]

/-- When the rules reject every pair, the inner sweep loop does nothing. -/
theorem connAllInner_none (rules : ConnectionRules)
    (cinfo : Nat → Option String) (minS : Strength)
    (aIn aOut : Option SeqAddr)
    (h : ∀ o i, rules.isConnectionAllowed cinfo o i minS = false) :
    ∀ (bs : clients_t) (handled : List (SeqAddr × SeqAddr)),
      connAllInner rules cinfo minS aIn aOut bs handled = ([], handled) := by
  intro bs
  induction bs with
  | nil => intro handled; rfl
  | cons b bs ih =>
    intro handled
    simp [connAllInner, connectCheck_none rules cinfo minS _ _ _ h, ih]

/-- When the rules reject every pair, the outer sweep loop does nothing. -/
theorem connAllOuter_none (rules : ConnectionRules)
    (cinfo : Nat → Option String) (minS : Strength) (lb : clients_t)
    (h : ∀ o i, rules.isConnectionAllowed cinfo o i minS = false) :
    ∀ (la : clients_t) (handled : List (SeqAddr × SeqAddr)),
      connAllOuter rules cinfo minS lb la handled = ([], handled) := by
  intro la
  induction la with
  | nil => intro handled; rfl
  | cons a la ih =>
    intro handled
    by_cases hskip : (a.2.input.isNone && a.2.output.isNone) = true
    · simp [connAllOuter, hskip, ih]
    · simp [connAllOuter, hskip, ih,
        connAllInner_none rules cinfo minS _ _ h, connectCheck_none]

/-- When the rules reject every pair, the bulk sweep issues no links. -/
theorem portsConnectAll_none (rules : ConnectionRules)
    (cinfo : Nat → Option String) (la lb : clients_t) (minS : Strength)
    (h : ∀ o i, rules.isConnectionAllowed cinfo o i minS = false) :
    portsConnectAll rules cinfo la lb minS = [] := by
  unfold portsConnectAll
  rw [connAllOuter_none rules cinfo minS lb h la []]

/-- With every pair allowed, fully-tracked listB clients, and fresh
pairwise-distinct links, the inner loop emits exactly this client's link
list and marks each link handled. -/
theorem connAllInner_full (rules : ConnectionRules)
    (cinfo : Nat → Option String) (minS : Strength) (ai ao : SeqAddr)
    (hallow : ∀ o i, rules.isConnectionAllowed cinfo o i minS = true) :
    ∀ (bs : clients_t) (handled : List (SeqAddr × SeqAddr)),
      (∀ b ∈ bs, fullEntry b) →
      (crossPairsA ao ai bs).Nodup →
      (∀ p ∈ crossPairsA ao ai bs, p ∉ handled) →
      connAllInner rules cinfo minS (some ai) (some ao) bs handled =
        (crossPairsA ao ai bs,
          (crossPairsA ao ai bs).reverse ++ handled) := by
  intro bs
  induction bs with
  | nil => intro handled _ _ _; simp [connAllInner, crossPairsA]
  | cons b bs ih =>
    intro handled hfull hnodup hfresh
    obtain ⟨hbi0, hbo0⟩ := hfull b (List.mem_cons_self _ _)
    obtain ⟨bi, hbi⟩ := Option.isSome_iff_exists.mp hbi0
    obtain ⟨bo, hbo⟩ := Option.isSome_iff_exists.mp hbo0
    have hiA : inAddrD b.2 = bi := by simp [inAddrD, hbi]
    have hoA : outAddrD b.2 = bo := by simp [outAddrD, hbo]
    rw [crossPairsA_cons, hiA, hoA] at hnodup hfresh ⊢
    have hp1 : (ao, bi) ∉ handled := hfresh _ (List.mem_cons_self _ _)
    have hp2 : (bo, ai) ∉ handled :=
      hfresh _ (List.mem_cons_of_mem _ (List.mem_cons_self _ _))
    have hnotin1 : (ao, bi) ∉ (bo, ai) :: crossPairsA ao ai bs :=
      (List.nodup_cons.mp hnodup).1
    have hnodup2 := (List.nodup_cons.mp hnodup).2
    have hnotin2 : (bo, ai) ∉ crossPairsA ao ai bs :=
      (List.nodup_cons.mp hnodup2).1
    have hnodup3 := (List.nodup_cons.mp hnodup2).2
    have hne : (ao, bi) ≠ (bo, ai) := by
      intro he
      exact hnotin1 (by rw [he]; exact List.mem_cons_self _ _)
    have hr1 : connectCheck rules cinfo minS (some ao) (some bi) handled =
        ([(ao, bi)], (ao, bi) :: handled) := by
      simp [connectCheck, hp1, hallow ao bi]
    have hr2 : connectCheck rules cinfo minS (some bo) (some ai)
        ((ao, bi) :: handled) =
        ([(bo, ai)], (bo, ai) :: (ao, bi) :: handled) := by
      have hnm : (bo, ai) ∉ (ao, bi) :: handled := by
        intro hm
        rcases List.mem_cons.mp hm with he | hm2
        · exact hne he.symm
        · exact hp2 hm2
      simp [connectCheck, hnm, hallow bo ai]
    have hr3 := ih ((bo, ai) :: (ao, bi) :: handled)
      (fun x hx => hfull x (List.mem_cons_of_mem _ hx)) hnodup3 ?_
    · simp only [connAllInner, hbi, hbo, hr1, hr2, hr3]
      simp [Prod.mk.injEq, List.reverse_cons, List.append_assoc]
    · intro p hp hm
      rcases List.mem_cons.mp hm with he | hm2
      · exact hnotin2 (he ▸ hp)
      · rcases List.mem_cons.mp hm2 with he | hm3
        · exact hnotin1 (he ▸ List.mem_cons_of_mem _ hp)
        · exact hfresh p
            (List.mem_cons_of_mem _ (List.mem_cons_of_mem _ hp)) hm3

/-- With every pair allowed, fully-tracked clients, and fresh
pairwise-distinct links, the outer loop emits exactly the pass's link
list: the handled set never suppresses a link. -/
theorem connAllOuter_full (rules : ConnectionRules)
    (cinfo : Nat → Option String) (minS : Strength) (lb : clients_t)
    (hlb : ∀ b ∈ lb, fullEntry b)
    (hallow : ∀ o i, rules.isConnectionAllowed cinfo o i minS = true) :
    ∀ (la : clients_t) (handled : List (SeqAddr × SeqAddr)),
      (∀ a ∈ la, fullEntry a) →
      (sweepPairs la lb).Nodup →
      (∀ p ∈ sweepPairs la lb, p ∉ handled) →
      connAllOuter rules cinfo minS lb la handled =
        (sweepPairs la lb, (sweepPairs la lb).reverse ++ handled) := by
  intro la
  induction la with
  | nil => intro handled _ _ _; simp [connAllOuter, sweepPairs]
  | cons a la ih =>
    intro handled hfull hnodup hfresh
    obtain ⟨hai0, hao0⟩ := hfull a (List.mem_cons_self _ _)
    obtain ⟨ai, hai⟩ := Option.isSome_iff_exists.mp hai0
    obtain ⟨ao, hao⟩ := Option.isSome_iff_exists.mp hao0
    have hiA : inAddrD a.2 = ai := by simp [inAddrD, hai]
    have hoA : outAddrD a.2 = ao := by simp [outAddrD, hao]
    rw [sweepPairs_cons, hiA, hoA] at hnodup hfresh ⊢
    rw [List.nodup_append] at hnodup
    obtain ⟨hnd1, hnd2, hdisj⟩ := hnodup
    have hskip : (a.2.input.isNone && a.2.output.isNone) = false := by
      simp [hai]
    have hinner := connAllInner_full rules cinfo minS ai ao hallow lb handled
      hlb hnd1 (fun p hp => hfresh p (List.mem_append_left _ hp))
    have houter := ih ((crossPairsA ao ai lb).reverse ++ handled)
      (fun x hx => hfull x (List.mem_cons_of_mem _ hx)) hnd2 ?_
    · simp only [connAllOuter, hskip, Bool.false_eq_true, if_false, hai, hao,
        hinner, houter]
      simp [Prod.mk.injEq, List.reverse_append, List.append_assoc]
    · intro p hp hm
      rcases List.mem_append.mp hm with hm1 | hm2
      · exact hdisj (List.mem_reverse.mp hm1) hp
      · exact hfresh p (List.mem_append_right _ hp) hm2

/-- C3: with the allow-all policy over fully-tracked registries with
distinct tracked addresses, the startup sweep's cross-role pass issues
exactly the 2*N*M hardware-software links (one per direction per
cross-role client pair), both same-role passes issue nothing (allow-all
only reaches VeryVague while they require Specific), and the three-pass
startup sweep as a whole issues exactly those 2*N*M links. -/
theorem portsInit_allowAll_sweep (cinfo : Nat → Option String)
    (sw hw : clients_t)
    (hfull : ∀ c ∈ hw ++ sw, fullEntry c)
    (hdist : (hw ++ sw).Pairwise distinctAddrs) :
    portsConnectAll allowAllRules cinfo hw sw .STRENGTH_VERY_VAGUE =
      sweepPairs hw sw ∧
    portsConnectAll allowAllRules cinfo hw hw .STRENGTH_SPECIFIC = [] ∧
    portsConnectAll allowAllRules cinfo sw sw .STRENGTH_SPECIFIC = [] ∧
    portsInitSweep allowAllRules cinfo sw hw = sweepPairs hw sw ∧
    (portsInitSweep allowAllRules cinfo sw hw).length =
      2 * hw.length * sw.length := by
  have hpass1 : portsConnectAll allowAllRules cinfo hw sw
      .STRENGTH_VERY_VAGUE = sweepPairs hw sw := by
    unfold portsConnectAll
    rw [connAllOuter_full allowAllRules cinfo .STRENGTH_VERY_VAGUE sw
      (fun b hb => hfull b (List.mem_append_right _ hb))
      (allowAll_veryVague cinfo) hw []
      (fun a ha => hfull a (List.mem_append_left _ ha))
      (sweepPairs_nodup sw hw hdist)
      (fun p _ hm => (List.not_mem_nil p) hm)]
  have hpass2 : portsConnectAll allowAllRules cinfo hw hw
      .STRENGTH_SPECIFIC = [] :=
    portsConnectAll_none _ _ _ _ _ (allowAll_specific cinfo)
  have hpass3 : portsConnectAll allowAllRules cinfo sw sw
      .STRENGTH_SPECIFIC = [] :=
    portsConnectAll_none _ _ _ _ _ (allowAll_specific cinfo)
  have hsweep : portsInitSweep allowAllRules cinfo sw hw =
      sweepPairs hw sw := by
    unfold portsInitSweep
    rw [hpass1, hpass2, hpass3, List.append_nil, List.append_nil]
  refine ⟨hpass1, hpass2, hpass3, hsweep, ?_⟩
  rw [hsweep, sweepPairs_length]
  ring

/-- C3 witness: one hardware and one software client, each with one input
and one output port, yield exactly two links and no same-role links. -/
theorem portsInit_allowAll_sweep_witness :
    (∀ c ∈ ([(1, ⟨1, some ⟨1, 0⟩, some ⟨1, 1⟩⟩)] ++
      [(2, ⟨2, some ⟨2, 0⟩, some ⟨2, 1⟩⟩)] : clients_t), fullEntry c) ∧
    (portsInitSweep allowAllRules (fun _ => some "X")
      [(2, ⟨2, some ⟨2, 0⟩, some ⟨2, 1⟩⟩)]
      [(1, ⟨1, some ⟨1, 0⟩, some ⟨1, 1⟩⟩)]).length = 2 * 1 * 1 ∧
    portsConnectAll allowAllRules (fun _ => some "X")
      [(1, ⟨1, some ⟨1, 0⟩, some ⟨1, 1⟩⟩)]
      [(1, ⟨1, some ⟨1, 0⟩, some ⟨1, 1⟩⟩)] .STRENGTH_SPECIFIC = [] := by
  have h := portsInit_allowAll_sweep (fun _ => some "X")
    [(2, ⟨2, some ⟨2, 0⟩, some ⟨2, 1⟩⟩)]
    [(1, ⟨1, some ⟨1, 0⟩, some ⟨1, 1⟩⟩)]
    (by decide)
    (by
      constructor
      · intro q hq
        simp at hq
        subst hq
        exact ⟨by decide, by decide⟩
      · exact List.pairwise_singleton _ _)
  exact ⟨by decide, by simpa using h.2.2.2.2, h.2.1⟩

end Amidiauto
